import Mathlib

/-!
Verification of the `image_to_glsl_array` converter (`src/main.rs`).

The program decodes an image into an RGBA8 pixel grid, serializes it as a
GLSL `vec4 image[W][H]` array literal (outer loop over `x` in `0..width`,
inner loop over `y` in `0..height`, each 8-bit channel printed as the
`f64` value `(1/255) * c` formatted with `{:.7}`), and writes the buffer
to the output file, which is opened with create+write+truncate after the
image has been decoded.  `main` prints the error and exits with code 1 on
an `Err` result, and prints a success message and exits with code 0
otherwise.
-/

set_option maxRecDepth 100000

namespace ImageToGlsl

/-- Pixel model: `image::Rgba<u8>`, four 8-bit channels (red, green, blue,
alpha), as returned by `get_pixel(x, y).0` in source order. -/
structure Pixel where
  r : Fin 256
  g : Fin 256
  b : Fin 256
  a : Fin 256
  deriving DecidableEq

/-- Decoded image model: `dimensions.0` (width), `dimensions.1` (height) and
the pixel accessor.  The serializer only ever samples `pixel x y` with
`x < width` and `y < height`, so a total function is a faithful model of
`GenericImageView::get_pixel` on the in-bounds domain. -/
structure Image where
  width : Nat
  height : Nat
  pixel : Nat → Nat → Pixel

/-- Numerator of the 7-fractional-digit decimal closest to `c / 255`:
`num7 c = round(c * 10^7 / 255)`, computed as a floor after adding half the
denominator.  No `c / 255` with `c : Nat` lands exactly on a half-ulp tie
(that would force `51 ∣ c` and those quotients terminate in one decimal
digit), so round-half-up equals round-to-nearest here. -/
def num7 (c : Nat) : Nat :=
  (2 * c * 10000000 + 255) / 510

/-- Left-pad the decimal digits of `m` with zeros to width 7 (the
fractional part of a `{:.7}` rendering). -/
def pad7 (m : Nat) : String :=
  String.mk (List.replicate (7 - (Nat.repr m).length) '0') ++ Nat.repr m

/-- Models `format!("{:.7}", (1 as f64) / (255 as f64) * (c as f64))` from
lines 98-104 of `main.rs` for a channel byte `c ≤ 255`.  Rust prints the
decimal expansion of the `f64` argument rounded to 7 fractional digits.
The `f64` value differs from the rational `c / 255` by at most `3e-16`,
while `c / 255` is never closer than `1/(510 * 10^7) ≈ 2e-10` to a 7-digit
midpoint, so the printed digits are exactly the nearest 7-digit decimal to
`c / 255`, i.e. `num7 c` split into integer and fractional part. -/
def fmt7 (c : Nat) : String :=
  Nat.repr (num7 c / 10000000) ++ "." ++ pad7 (num7 c % 10000000)

/-- One serialized pixel, `vec4(r, g, b, a)` with normalized channels
(lines 98-104 of `main.rs`). -/
def vec4Str (p : Pixel) : String :=
  "vec4(" ++ fmt7 p.r.val ++ ", " ++ fmt7 p.g.val ++ ", " ++ fmt7 p.b.val
    ++ ", " ++ fmt7 p.a.val ++ ")"

/-- The first two `output +=` lines (92-93 of `main.rs`): version header and
array declaration. -/
def headerDecl (img : Image) : String :=
  "#version 420\n" ++ "vec4 image[" ++ Nat.repr img.width ++ "]["
    ++ Nat.repr img.height ++ "] = \x7b\n"

/-- The serialization loop of `run` (lines 92-116 of `main.rs`), as a fold
with the same accumulation order as the imperative `output +=` statements:
for each `x`, a tab and opening brace, then for each `y` the pixel text
followed by `", "` or - for the last `y` - the row-closing brace, then
`",\n"` or - for the last `x` - the `"\n};"` terminator. -/
def serialize (img : Image) : String :=
  (List.range img.width).foldl
    (fun acc x =>
      ((List.range img.height).foldl
        (fun acc2 y =>
          acc2 ++ vec4Str (img.pixel x y)
            ++ (if y + 1 = img.height then "\x7d" else ", "))
        (acc ++ "\t\x7b"))
      ++ (if x + 1 = img.width then "\n\x7d;" else ",\n"))
    (headerDecl img)

/-- Concatenation of a list of strings (reassociation target for the
`foldl` in `serialize`). -/
def strConcat : List String → String
  | [] => ""
  | s :: rest => s ++ strConcat rest

/-- Interleave a separator between the strings of a list (used to state the
documented element/row separator layout). -/
def sepBy (s : String) : List String → String
  | [] => ""
  | [a] => a
  | a :: b :: rest => a ++ s ++ sepBy s (b :: rest)

/-- Spec-side description of one row group's element list: the documented
format's `vec4(...)` entries of column `x`, one per `y < height`, in `y`
order. -/
def rowElems (img : Image) (x : Nat) : List String :=
  (List.range img.height).map (fun y => vec4Str (img.pixel x y))

/-- Spec-side description of the row groups: for each `x < width` a
tab-indented brace group of that column's elements separated by `", "`. -/
def rowGroups (img : Image) : List String :=
  (List.range img.width).map
    (fun x => "\t\x7b" ++ sepBy ", " (rowElems img x) ++ "\x7d")

/-- Split a character list at the first `'.'`; `none` when no dot occurs. -/
def splitDot : List Char → Option (List Char × List Char)
  | [] => none
  | c :: rest =>
    if c = '.' then some ([], rest)
    else
      match splitDot rest with
      | some (a, b) => some (c :: a, b)
      | none => none

/-- Decimal value of a digit list (most significant first); `none` on any
non-digit character. -/
def digitsValAux : List Char → Nat → Option Nat
  | [], acc => some acc
  | ch :: rest, acc =>
    if ch.isDigit then digitsValAux rest (10 * acc + (ch.toNat - 48))
    else none

/-- Parse a fixed-point literal with a nonempty integer part and exactly 7
fractional digits, returning its value scaled by `10^7`. -/
def parse7 (s : String) : Option Nat :=
  match splitDot s.data with
  | none => none
  | some (ip, fp) =>
    if ip.length = 0 then none
    else if fp.length = 7 then
      match digitsValAux ip 0, digitsValAux fp 0 with
      | some va, some vb => some (va * 10000000 + vb)
      | _, _ => none
    else none

/-- Number of characters after the first `'.'` of a string, when a dot is
present. -/
def fracDigits (s : String) : Option Nat :=
  (splitDot s.data).map (fun pr => pr.2.length)

/-- Count of a character in a string. -/
def countChar (c : Char) (s : String) : Nat :=
  s.data.count c

/-- Termination status of `run`: normal `Ok`, an `anyhow` error propagated
with `?`, or a panic (`unwrap` on a non-UTF-8 path), which bypasses `main`'s
error branch entirely. -/
inductive RunResult where
  | ok : RunResult
  | err : String → RunResult
  | panicked : RunResult
  deriving DecidableEq

/-- Outcomes of the external operations `run` performs, in program order:
the decode of lines 32-34 (`ImageReader::open(..)?.with_guessed_format()?`
`.decode()?`), the output open of lines 38-45, the UTF-8 validity of the
two paths unwrapped at lines 51 and 74, and the `write_all` of line 124. -/
structure Env where
  decodeResult : Except String Image
  openOutputOk : Bool
  openErrMsg : String
  inputPathUtf8 : Bool
  outputPathUtf8 : Bool
  writeOk : Bool
  writeErrMsg : String

/-- Effect model of `run` (lines 23-129 of `main.rs`) on the output file:
`file` is the prior state of the destination (`none` = nonexistent), the
result pairs the termination status with the final destination state.
Steps in source order: decode (before the output file is touched), then
`OpenOptions::new().create(true).write(true).truncate(true).open(..)`,
which on success discards any prior contents, then the two
`to_str().unwrap()` calls on the paths, then buffer construction, then
`write_all`.  A failed `write_all` leaves the truncated file (possibly
with a prefix of the buffer; the model keeps the truncated state, which is
all the claims inspect). -/
def runModel (env : Env) (file : Option String) : RunResult × Option String :=
  match env.decodeResult with
  | Except.error e => (RunResult.err e, file)
  | Except.ok img =>
    if env.openOutputOk then
      if env.inputPathUtf8 then
        if env.outputPathUtf8 then
          if env.writeOk then (RunResult.ok, some (serialize img))
          else (RunResult.err env.writeErrMsg, some "")
        else (RunResult.panicked, some "")
      else (RunResult.panicked, some "")
    else (RunResult.err env.openErrMsg, file)

/-- Model of `main` (lines 131-143 of `main.rs`): exit code and the lines
printed to standard output by `main` itself.  An `Err` from `run` prints
the error and exits 1; an `Ok` prints the success message and exits 0 (the
`Ok(())` return of `main`); a panic aborts the process (Rust exit code
101) without reaching either branch. -/
def mainModel (r : RunResult) : Nat × List String :=
  match r with
  | RunResult.ok => (0, ["\nDone!"])
  | RunResult.err e => (1, ["An error occured:\n  " ++ e])
  | RunResult.panicked => (101, [])

/-! ### String and list helper lemmas -/

theorem str_append_assoc (a b c : String) : a ++ b ++ c = a ++ (b ++ c) := by
  apply String.ext
  simp [String.data_append, List.append_assoc]

theorem str_append_empty (a : String) : a ++ "" = a := by
  apply String.ext
  rw [String.data_append]
  exact List.append_nil a.data

theorem strConcat_cons (s : String) (l : List String) :
    strConcat (s :: l) = s ++ strConcat l := rfl

theorem sepBy_cons (s a : String) (l : List String) (h : l ≠ []) :
    sepBy s (a :: l) = a ++ s ++ sepBy s l := by
  cases l with
  | nil => exact absurd rfl h
  | cons b rest => rfl

theorem foldl_append_eq {α : Type} (f : α → String) (l : List α) :
    ∀ acc : String,
      l.foldl (fun a x => a ++ f x) acc = acc ++ strConcat (l.map f) := by
  induction l with
  | nil => intro acc; simp [strConcat, str_append_empty]
  | cons s rest ih =>
      intro acc
      simp only [List.foldl_cons, List.map_cons, strConcat_cons]
      rw [ih, str_append_assoc]

theorem strConcat_markLast (s t : String) :
    ∀ (n : Nat) (f : Nat → String),
      strConcat ((List.range (n+1)).map
          (fun i => f i ++ (if i + 1 = n + 1 then t else s)))
        = sepBy s ((List.range (n+1)).map f) ++ t := by
  intro n
  induction n with
  | zero =>
      intro f
      show strConcat [f 0 ++ (if 0 + 1 = 0 + 1 then t else s)] = sepBy s [f 0] ++ t
      rw [if_pos rfl]
      show (f 0 ++ t) ++ "" = f 0 ++ t
      exact str_append_empty _
  | succ n ih =>
      intro f
      rw [List.range_succ_eq_map, List.map_cons, List.map_cons, List.map_map,
        List.map_map, strConcat_cons]
      have hhead : f 0 ++ (if 0 + 1 = n + 1 + 1 then t else s) = f 0 ++ s := by
        rw [if_neg (by omega)]
      have htail :
          (List.range (n+1)).map
              ((fun i => f i ++ (if i + 1 = n + 1 + 1 then t else s)) ∘ Nat.succ)
            = (List.range (n+1)).map
              (fun j => f (j+1) ++ (if j + 1 = n + 1 then t else s)) := by
        apply List.map_congr_left
        intro j _
        show f (j+1) ++ (if j + 1 + 1 = n + 1 + 1 then t else s) = _
        rw [if_congr (by omega : (j + 1 + 1 = n + 1 + 1) ↔ (j + 1 = n + 1)) rfl rfl]
      rw [hhead, htail, ih (fun j => f (j+1))]
      have hmapsucc :
          (List.range (n+1)).map (f ∘ Nat.succ)
            = (List.range (n+1)).map (fun j => f (j+1)) := by
        apply List.map_congr_left
        intro j _
        rfl
      rw [hmapsucc]
      have hne : (List.range (n+1)).map (fun j => f (j+1)) ≠ [] := by
        apply List.ne_nil_of_length_pos
        simp [List.length_map, List.length_range]
      rw [sepBy_cons _ _ _ hne]
      simp only [str_append_assoc]

/-! ### Structural form of the serializer -/

/-- Definitional unfolding of `serialize` on an explicit image. -/
theorem serialize_mk (W H : Nat) (pix : Nat → Nat → Pixel) :
    serialize ⟨W, H, pix⟩
      = (List.range W).foldl
          (fun acc x =>
            ((List.range H).foldl
              (fun acc2 y =>
                acc2 ++ vec4Str (pix x y)
                  ++ (if y + 1 = H then "\x7d" else ", "))
              (acc ++ "\t\x7b"))
            ++ (if x + 1 = W then "\n\x7d;" else ",\n"))
          (headerDecl ⟨W, H, pix⟩) := rfl

/-- The serializer output as a flat concatenation of row texts. -/
theorem serialize_eq_concat (W H : Nat) (pix : Nat → Nat → Pixel) :
    serialize ⟨W, H, pix⟩
      = headerDecl ⟨W, H, pix⟩
        ++ strConcat ((List.range W).map (fun x =>
            "\t\x7b"
              ++ strConcat ((List.range H).map (fun y =>
                  vec4Str (pix x y) ++ (if y + 1 = H then "\x7d" else ", ")))
              ++ (if x + 1 = W then "\n\x7d;" else ",\n"))) := by
  rw [serialize_mk]
  have hstep : ∀ x, ∀ (a : String), ∀ y ∈ List.range H,
      a ++ vec4Str (pix x y) ++ (if y + 1 = H then "\x7d" else ", ")
        = a ++ (vec4Str (pix x y) ++ (if y + 1 = H then "\x7d" else ", ")) := by
    intro x a y _
    exact str_append_assoc _ _ _
  have hrow : ∀ (acc : String), ∀ x ∈ List.range W,
      ((List.range H).foldl
        (fun acc2 y =>
          acc2 ++ vec4Str (pix x y) ++ (if y + 1 = H then "\x7d" else ", "))
        (acc ++ "\t\x7b"))
      ++ (if x + 1 = W then "\n\x7d;" else ",\n")
      = acc ++ ("\t\x7b"
          ++ strConcat ((List.range H).map (fun y =>
              vec4Str (pix x y) ++ (if y + 1 = H then "\x7d" else ", ")))
          ++ (if x + 1 = W then "\n\x7d;" else ",\n")) := by
    intro acc x _
    rw [List.foldl_ext _ _ _ (hstep x), foldl_append_eq]
    simp only [str_append_assoc]
  rw [List.foldl_ext _ _ _ hrow, foldl_append_eq]

/-- For positive dimensions the serializer output is the header, the
declaration, the `",\n"`-separated row groups and the terminator. -/
theorem serialize_rows (w h : Nat) (pix : Nat → Nat → Pixel) :
    serialize ⟨w+1, h+1, pix⟩
      = headerDecl ⟨w+1, h+1, pix⟩
        ++ sepBy ",\n" (rowGroups ⟨w+1, h+1, pix⟩) ++ "\n\x7d;" := by
  rw [serialize_eq_concat]
  have hinner : ∀ x : Nat,
      "\t\x7b"
          ++ strConcat ((List.range (h+1)).map (fun y =>
              vec4Str (pix x y) ++ (if y + 1 = h + 1 then "\x7d" else ", ")))
          ++ (if x + 1 = w + 1 then "\n\x7d;" else ",\n")
        = ("\t\x7b" ++ sepBy ", " (rowElems ⟨w+1, h+1, pix⟩ x) ++ "\x7d")
          ++ (if x + 1 = w + 1 then "\n\x7d;" else ",\n") := by
    intro x
    rw [strConcat_markLast ", " "\x7d" h (fun y => vec4Str (pix x y))]
    show "\t\x7b" ++ (sepBy ", " (rowElems ⟨w+1, h+1, pix⟩ x) ++ "\x7d") ++ _ = _
    simp only [str_append_assoc]
  have hmap :
      (List.range (w+1)).map (fun x =>
        "\t\x7b"
          ++ strConcat ((List.range (h+1)).map (fun y =>
              vec4Str (pix x y) ++ (if y + 1 = h + 1 then "\x7d" else ", ")))
          ++ (if x + 1 = w + 1 then "\n\x7d;" else ",\n"))
      = (List.range (w+1)).map (fun x =>
          ("\t\x7b" ++ sepBy ", " (rowElems ⟨w+1, h+1, pix⟩ x) ++ "\x7d")
          ++ (if x + 1 = w + 1 then "\n\x7d;" else ",\n")) := by
    apply List.map_congr_left
    intro x _
    exact hinner x
  rw [hmap, strConcat_markLast ",\n" "\n\x7d;" w
    (fun x => "\t\x7b" ++ sepBy ", " (rowElems ⟨w+1, h+1, pix⟩ x) ++ "\x7d")]
  rw [← str_append_assoc]
  rfl

/-- General-image version of `serialize_rows`. -/
theorem serialize_rows_of_pos (img : Image)
    (hw : 1 ≤ img.width) (hh : 1 ≤ img.height) :
    serialize img
      = headerDecl img ++ sepBy ",\n" (rowGroups img) ++ "\n\x7d;" := by
  obtain ⟨W, H, pix⟩ := img
  have hw' : 1 ≤ W := hw
  have hh' : 1 ≤ H := hh
  obtain ⟨w, rfl⟩ : ∃ w, W = w + 1 := ⟨W - 1, by omega⟩
  obtain ⟨h, rfl⟩ : ∃ h, H = h + 1 := ⟨H - 1, by omega⟩
  exact serialize_rows w h pix

/-- C1: for every decoded image of positive dimensions, the output declares
the array as `vec4 image[W][H]` with `W`, `H` the image's width and height
(the `headerDecl` conjunct), consists of exactly `width` row groups
(`rowGroups` length), each of exactly `height` elements (`rowElems`
length), and the element at outer position `x`, inner position `y` is the
serialization of the pixel at source coordinates `(x, y)`; a 2×1 image
therefore yields exactly two row groups in input column order. -/
theorem image_dims_and_pixel_positions (img : Image)
    (hw : 1 ≤ img.width) (hh : 1 ≤ img.height) :
    serialize img
        = headerDecl img ++ sepBy ",\n" (rowGroups img) ++ "\n\x7d;"
      ∧ (rowGroups img).length = img.width
      ∧ (∀ x, (rowElems img x).length = img.height)
      ∧ (∀ x, (rowGroups img).getD x ""
          = if x < img.width
            then "\t\x7b" ++ sepBy ", " (rowElems img x) ++ "\x7d" else "")
      ∧ (∀ x y, (rowElems img x).getD y ""
          = if y < img.height then vec4Str (img.pixel x y) else "") := by
  refine ⟨serialize_rows_of_pos img hw hh, ?_, ?_, ?_, ?_⟩
  · simp [rowGroups]
  · intro x; simp [rowElems]
  · intro x
    by_cases hx : x < img.width
    · rw [if_pos hx, rowGroups, List.getD_eq_getElem?_getD, List.getElem?_map,
        List.getElem?_range hx]
      rfl
    · rw [if_neg hx, rowGroups, List.getD_eq_getElem?_getD, List.getElem?_eq_none]
      · rfl
      · simp only [List.length_map, List.length_range]
        omega
  · intro x y
    by_cases hy : y < img.height
    · rw [if_pos hy, rowElems, List.getD_eq_getElem?_getD, List.getElem?_map,
        List.getElem?_range hy]
      rfl
    · rw [if_neg hy, rowElems, List.getD_eq_getElem?_getD, List.getElem?_eq_none]
      · rfl
      · simp only [List.length_map, List.length_range]
        omega

/-- Concrete 2×1 image: red pixel in column 0, blue pixel in column 1. -/
def img2x1 : Image :=
  ⟨2, 1, fun x _ => if x = 0 then ⟨255, 0, 0, 255⟩ else ⟨0, 0, 255, 255⟩⟩

/-- Witness for C1 at the 2×1 image: the hypotheses hold and the output is
exactly two row groups, in input column order. -/
theorem image_dims_and_pixel_positions_witness :
    1 ≤ img2x1.width ∧ 1 ≤ img2x1.height
      ∧ (rowGroups img2x1).length = 2
      ∧ serialize img2x1
          = headerDecl img2x1 ++ sepBy ",\n" (rowGroups img2x1) ++ "\n\x7d;"
      ∧ serialize img2x1
          = "#version 420\nvec4 image[2][1] = \x7b\n\t\x7bvec4(1.0000000, 0.0000000, 0.0000000, 1.0000000)\x7d,\n\t\x7bvec4(0.0000000, 0.0000000, 1.0000000, 1.0000000)\x7d\n\x7d;" :=
  ⟨by decide, by decide,
    (image_dims_and_pixel_positions img2x1 (by decide) (by decide)).2.1,
    (image_dims_and_pixel_positions img2x1 (by decide) (by decide)).1,
    by decide⟩

/-- C2: for positive dimensions the output text is exactly the header line,
the declaration line, then for each row a tab, an opening brace, the row's
elements separated by `", "` with the last element immediately followed by
the row-closing brace, rows separated by `",\n"`, and the final row
followed by a newline and the terminator `\x7d;`. -/
theorem output_exact_format (w h : Nat) (pix : Nat → Nat → Pixel) :
    serialize ⟨w+1, h+1, pix⟩
      = "#version 420\n"
        ++ ("vec4 image[" ++ Nat.repr (w+1) ++ "][" ++ Nat.repr (h+1)
            ++ "] = \x7b\n")
        ++ sepBy ",\n" ((List.range (w+1)).map (fun x =>
            "\t\x7b"
              ++ sepBy ", " ((List.range (h+1)).map
                  (fun y => vec4Str (pix x y)))
              ++ "\x7d"))
        ++ "\n\x7d;" := by
  rw [serialize_rows]
  simp only [headerDecl, rowGroups, rowElems, str_append_assoc]

/-- The 1×1 image whose sole pixel is opaque white. -/
def white1x1 : Image := ⟨1, 1, fun _ _ => ⟨255, 255, 255, 255⟩⟩

/-- C7: the 1×1 opaque-white image serializes with exactly one element,
`vec4(1.0000000, 1.0000000, 1.0000000, 1.0000000)`. -/
theorem white_pixel_sole_element :
    serialize white1x1
        = "#version 420\nvec4 image[1][1] = \x7b\n\t\x7bvec4(1.0000000, 1.0000000, 1.0000000, 1.0000000)\x7d\n\x7d;"
      ∧ rowGroups white1x1
        = ["\t\x7bvec4(1.0000000, 1.0000000, 1.0000000, 1.0000000)\x7d"]
      ∧ rowElems white1x1 0
        = ["vec4(1.0000000, 1.0000000, 1.0000000, 1.0000000)"] := by
  refine ⟨?_, ?_, ?_⟩ <;> decide

/-! ### Character counting and decimal-digit facts -/

theorem countChar_append (c : Char) (a b : String) :
    countChar c (a ++ b) = countChar c a + countChar c b := by
  unfold countChar
  rw [String.data_append, List.count_append]

theorem toDigitsCore_zero (b n : Nat) (ds : List Char) :
    Nat.toDigitsCore b 0 n ds = ds := by
  rw [Nat.toDigitsCore]

theorem toDigitsCore_succ (b f n : Nat) (ds : List Char) :
    Nat.toDigitsCore b (f+1) n ds =
      if n / b = 0 then (n % b).digitChar :: ds
      else Nat.toDigitsCore b f (n / b) ((n % b).digitChar :: ds) := by
  rw [Nat.toDigitsCore]

theorem digitChar_isDigit (m : Nat) (h : m < 10) :
    (Nat.digitChar m).isDigit = true := by
  interval_cases m <;> decide

theorem toDigitsCore_digits (f : Nat) :
    ∀ (n : Nat) (ds : List Char), (∀ ch ∈ ds, ch.isDigit = true) →
      ∀ ch ∈ Nat.toDigitsCore 10 f n ds, ch.isDigit = true := by
  induction f with
  | zero =>
      intro n ds h ch hch
      rw [toDigitsCore_zero] at hch
      exact h ch hch
  | succ f ih =>
      intro n ds h ch hch
      rw [toDigitsCore_succ] at hch
      have hext : ∀ ch' ∈ (n % 10).digitChar :: ds, ch'.isDigit = true := by
        intro ch' hch'
        rcases List.mem_cons.mp hch' with hh | hh
        · rw [hh]
          exact digitChar_isDigit _ (Nat.mod_lt n (by norm_num))
        · exact h ch' hh
      by_cases h0 : n / 10 = 0
      · rw [if_pos h0] at hch
        exact hext ch hch
      · rw [if_neg h0] at hch
        exact ih (n / 10) _ hext ch hch

theorem repr_all_digits (n : Nat) :
    ∀ ch ∈ (Nat.repr n).data, ch.isDigit = true :=
  toDigitsCore_digits (n+1) n [] (by intro ch hch; cases hch)

theorem countChar_repr_zero (c : Char) (hc : c.isDigit = false) (n : Nat) :
    countChar c (Nat.repr n) = 0 := by
  unfold countChar
  rw [List.count_eq_zero]
  intro hmem
  have hd := repr_all_digits n c hmem
  rw [hc] at hd
  exact Bool.false_ne_true hd

theorem countChar_sepBy_replicate (c : Char) (s a : String) :
    ∀ n : Nat, countChar c (sepBy s (List.replicate (n+1) a))
      = (n+1) * countChar c a + n * countChar c s := by
  intro n
  induction n with
  | zero =>
      show countChar c a = 1 * countChar c a + 0 * countChar c s
      ring
  | succ n ih =>
      rw [List.replicate_succ, sepBy_cons, countChar_append, countChar_append, ih]
      · ring
      · rw [List.replicate_succ]
        exact List.cons_ne_nil _ _

/-! ### Degenerate dimensions -/

/-- With height `0` the inner loop never runs: every row contributes only
`"\t\x7b"` plus its separator. -/
theorem serialize_width_pos_height_zero (w : Nat) (pix : Nat → Nat → Pixel) :
    serialize ⟨w+1, 0, pix⟩
      = headerDecl ⟨w+1, 0, pix⟩
        ++ sepBy ",\n" (List.replicate (w+1) "\t\x7b") ++ "\n\x7d;" := by
  rw [serialize_eq_concat]
  have hmap : (List.range (w+1)).map (fun x =>
        "\t\x7b"
          ++ strConcat ((List.range 0).map (fun y =>
              vec4Str (pix x y) ++ (if y + 1 = 0 then "\x7d" else ", ")))
          ++ (if x + 1 = w + 1 then "\n\x7d;" else ",\n"))
      = (List.range (w+1)).map (fun x =>
          "\t\x7b" ++ (if x + 1 = w + 1 then "\n\x7d;" else ",\n")) := by
    apply List.map_congr_left
    intro x _
    rw [show strConcat ((List.range 0).map (fun y =>
        vec4Str (pix x y) ++ (if y + 1 = 0 then "\x7d" else ", "))) = ""
      from rfl]
    rw [str_append_empty]
  rw [hmap, strConcat_markLast ",\n" "\n\x7d;" w (fun _ => "\t\x7b"),
    List.map_const', List.length_range, ← str_append_assoc]

/-- C10: with width `0` the output is just the header and declaration line
(no terminator, no closing brace at all); with positive width and height
`0` each row group is the unclosed `"\t\x7b"`, and the whole output has
`width + 1` opening braces but a single closing brace, so in both cases
the documented brace-balanced array-literal format is violated. -/
theorem degenerate_dimensions_malformed_output (hgt w : Nat)
    (pix pix' : Nat → Nat → Pixel) :
    (serialize ⟨0, hgt, pix⟩ = headerDecl ⟨0, hgt, pix⟩
      ∧ countChar '\x7d' (serialize ⟨0, hgt, pix⟩) = 0)
    ∧ (serialize ⟨w+1, 0, pix'⟩
        = headerDecl ⟨w+1, 0, pix'⟩
          ++ sepBy ",\n" (List.replicate (w+1) "\t\x7b") ++ "\n\x7d;"
      ∧ countChar '\x7b' (serialize ⟨w+1, 0, pix'⟩) = (w + 1) + 1
      ∧ countChar '\x7d' (serialize ⟨w+1, 0, pix'⟩) = 1) := by
  have hd0 := countChar_repr_zero '\x7d' (by decide)
  have hb0 := countChar_repr_zero '\x7b' (by decide)
  refine ⟨⟨rfl, ?_⟩, serialize_width_pos_height_zero w pix', ?_, ?_⟩
  · show countChar '\x7d' (headerDecl ⟨0, hgt, pix⟩) = 0
    show countChar '\x7d' ("#version 420\n" ++ "vec4 image[" ++ Nat.repr 0
      ++ "][" ++ Nat.repr hgt ++ "] = \x7b\n") = 0
    simp only [countChar_append, hd0]
    decide
  · rw [serialize_width_pos_height_zero w pix']
    show countChar '\x7b' ("#version 420\n" ++ "vec4 image["
        ++ Nat.repr (w+1) ++ "][" ++ Nat.repr 0 ++ "] = \x7b\n"
        ++ sepBy ",\n" (List.replicate (w+1) "\t\x7b") ++ "\n\x7d;")
      = (w + 1) + 1
    simp only [countChar_append, hb0, countChar_sepBy_replicate]
    have h1 : countChar '\x7b' "\t\x7b" = 1 := by decide
    have h2 : countChar '\x7b' ",\n" = 0 := by decide
    have h3 : countChar '\x7b' "#version 420\n" = 0 := by decide
    have h4 : countChar '\x7b' "vec4 image[" = 0 := by decide
    have h5 : countChar '\x7b' "][" = 0 := by decide
    have h6 : countChar '\x7b' "] = \x7b\n" = 1 := by decide
    have h7 : countChar '\x7b' "\n\x7d;" = 0 := by decide
    rw [h1, h2, h3, h4, h5, h6, h7]
    ring
  · rw [serialize_width_pos_height_zero w pix']
    show countChar '\x7d' ("#version 420\n" ++ "vec4 image["
        ++ Nat.repr (w+1) ++ "][" ++ Nat.repr 0 ++ "] = \x7b\n"
        ++ sepBy ",\n" (List.replicate (w+1) "\t\x7b") ++ "\n\x7d;")
      = 1
    simp only [countChar_append, hd0, countChar_sepBy_replicate]
    have h1 : countChar '\x7d' "\t\x7b" = 0 := by decide
    have h2 : countChar '\x7d' ",\n" = 0 := by decide
    have h3 : countChar '\x7d' "#version 420\n" = 0 := by decide
    have h4 : countChar '\x7d' "vec4 image[" = 0 := by decide
    have h5 : countChar '\x7d' "][" = 0 := by decide
    have h6 : countChar '\x7d' "] = \x7b\n" = 0 := by decide
    have h7 : countChar '\x7d' "\n\x7d;" = 1 := by decide
    rw [h1, h2, h3, h4, h5, h6, h7]
    ring

/-! ### Formatter facts -/

set_option maxHeartbeats 1000000 in
/-- Parsing the emitted literal recovers exactly the rounded numerator
`num7 c`, for every channel byte. -/
theorem parse_fmt7 : ∀ c : Nat, c < 256 → parse7 (fmt7 c) = some (num7 c) := by
  decide

set_option maxHeartbeats 1000000 in
/-- Every emitted literal has exactly 7 digits after the decimal point. -/
theorem fracDigits_fmt7 : ∀ c : Nat, c < 256 → fracDigits (fmt7 c) = some 7 := by
  decide

theorem num7_le (c : Nat) (hc : c ≤ 255) : num7 c ≤ 10000000 := by
  unfold num7
  omega

theorem num7_err_bounds (c : Nat) :
    510 * num7 c ≤ 2 * c * 10000000 + 255
      ∧ 2 * c * 10000000 + 255 < 510 * num7 c + 510 := by
  unfold num7
  omega

/-- C3: each 8-bit channel value `c` is emitted as the value `c / 255`
rounded to exactly 7 digits after the decimal point (off by at most half an
ulp of the 7-digit grid), and every emitted value lies in `[0, 1]`. -/
theorem channel_literal_normalized (c : Fin 256) :
    ∃ n : Nat,
      parse7 (fmt7 c.val) = some n
      ∧ fracDigits (fmt7 c.val) = some 7
      ∧ (0:ℚ) ≤ (n : ℚ) / 10^7
      ∧ (n : ℚ) / 10^7 ≤ 1
      ∧ |(n : ℚ) / 10^7 - (c.val : ℚ) / 255| ≤ 1 / (2 * 10^7) := by
  refine ⟨num7 c.val, parse_fmt7 c.val c.isLt, fracDigits_fmt7 c.val c.isLt,
    ?_, ?_, ?_⟩
  · positivity
  · rw [div_le_one (by norm_num)]
    have h := num7_le c.val (by omega)
    exact_mod_cast h
  · obtain ⟨h1, h2⟩ := num7_err_bounds c.val
    have hq1 : (510 * (num7 c.val) : ℚ) ≤ 2 * c.val * 10000000 + 255 := by
      exact_mod_cast h1
    have hq2 : (2 * c.val * 10000000 : ℚ) + 255 < 510 * (num7 c.val) + 510 := by
      exact_mod_cast h2
    have e : (num7 c.val : ℚ) / 10^7 - (c.val : ℚ) / 255
        = ((510 * (num7 c.val) : ℚ) - 2 * c.val * 10^7) / (510 * 10^7) := by
      field_simp
      ring
    rw [e, abs_div, abs_of_pos (by norm_num : (0:ℚ) < 510 * 10^7),
      div_le_div_iff₀ (by norm_num) (by norm_num)]
    have habs : |(510 * (num7 c.val) : ℚ) - 2 * c.val * 10^7| ≤ 255 := by
      rw [abs_le]
      constructor
      · nlinarith
      · nlinarith
    nlinarith

/-- C6: parsing an emitted channel literal back, multiplying by 255 and
rounding reproduces the original 8-bit channel value exactly. -/
theorem literal_round_trip (c : Fin 256) :
    ∃ n : Nat,
      parse7 (fmt7 c.val) = some n
      ∧ round ((n : ℚ) * 255 / 10^7) = (c.val : ℤ) := by
  refine ⟨num7 c.val, parse_fmt7 c.val c.isLt, ?_⟩
  obtain ⟨h1, h2⟩ := num7_err_bounds c.val
  have hq1 : (510 * (num7 c.val) : ℚ) ≤ 2 * c.val * 10000000 + 255 := by
    exact_mod_cast h1
  have hq2 : (2 * c.val * 10000000 : ℚ) + 255 < 510 * (num7 c.val) + 510 := by
    exact_mod_cast h2
  have e : (num7 c.val : ℚ) * 255 / 10^7 + 1/2
      = ((510 * (num7 c.val) : ℚ) + 10^7) / (2 * 10^7) := by
    field_simp
    ring
  rw [round_eq, e]
  apply Int.floor_eq_iff.mpr
  constructor
  · rw [le_div_iff₀ (by norm_num : (0:ℚ) < 2 * 10^7)]
    push_cast
    nlinarith
  · rw [div_lt_iff₀ (by norm_num : (0:ℚ) < 2 * 10^7)]
    push_cast
    nlinarith

/-! ### Control-flow and effect claims -/

/-- C4: when `run` returns `Ok`, `main` prints the success message and the
process exits with code 0; when `run` returns an error, `main` prints the
error to standard output and exits with code 1 (lines 131-143). -/
theorem exit_codes (e : String) :
    mainModel RunResult.ok = (0, ["\nDone!"])
      ∧ mainModel (RunResult.err e) = (1, ["An error occured:\n  " ++ e]) :=
  ⟨rfl, rfl⟩

/-- C5: any input-side failure (unreadable or undecodable input, the `?`s
of lines 32-34) aborts `run` before the output file is opened: the run
fails, `main` exits with code 1, and the destination file keeps exactly
its prior state - neither created nor modified. -/
theorem input_failure_leaves_output_untouched
    (e oMsg wMsg : String) (oOk u1 u2 wOk : Bool) (file : Option String) :
    runModel ⟨Except.error e, oOk, oMsg, u1, u2, wOk, wMsg⟩ file
        = (RunResult.err e, file)
      ∧ (mainModel (RunResult.err e)).1 = 1 :=
  ⟨rfl, rfl⟩

/-- C8: when the image decodes and the output open succeeds but either path
is not valid UTF-8, `run` panics at the `to_str().unwrap()` of line 51 or
line 74 - after the destination file has already been opened and truncated -
so the invocation terminates by panic rather than through the documented
error path (exit code 1 is not produced). -/
theorem non_utf8_path_panics_after_open
    (img : Image) (oMsg wMsg : String) (u2 wOk : Bool) (file : Option String) :
    runModel ⟨Except.ok img, true, oMsg, false, u2, wOk, wMsg⟩ file
        = (RunResult.panicked, some "")
      ∧ runModel ⟨Except.ok img, true, oMsg, true, false, wOk, wMsg⟩ file
        = (RunResult.panicked, some "")
      ∧ (mainModel RunResult.panicked).1 ≠ 1 :=
  ⟨rfl, rfl, by decide⟩

/-- C9: once the decode has succeeded and the destination open (with
create+truncate) has succeeded, any prior contents of the destination are
discarded: whatever happens afterwards the final file state is either the
truncated empty file or the fully serialized buffer; in particular a
failing `write_all` still leaves the destination truncated, so the run is
not atomic with respect to the output file. -/
theorem output_truncated_before_write
    (img : Image) (oMsg wMsg : String) (u1 u2 wOk : Bool)
    (file : Option String) :
    ((runModel ⟨Except.ok img, true, oMsg, u1, u2, wOk, wMsg⟩ file).2 = some ""
      ∨ (runModel ⟨Except.ok img, true, oMsg, u1, u2, wOk, wMsg⟩ file).2
          = some (serialize img))
      ∧ runModel ⟨Except.ok img, true, oMsg, true, true, false, wMsg⟩ file
          = (RunResult.err wMsg, some "") := by
  constructor
  · cases u1 <;> cases u2 <;> cases wOk <;> simp [runModel]
  · rfl

end ImageToGlsl
